import Mathlib

/-!
Verification of the TOIL time tracker's core: the entry store
(`src/store/useTimeStore.ts`) and the interval aggregator
(`src/pages/Reports.tsx`, `src/pages/Dashboard.tsx`).

Instants are epoch milliseconds, modelled as `Int`.  Durations computed by
the aggregator are seconds, modelled as `ℚ` (JavaScript number division by
1000 and 3600).  Nullable values are `Option`; where the source uses
JavaScript truthiness on a nullable number (`e.endTime || Date.now()`),
a dedicated helper models it, while the store's strict
`e.endTime === null` checks are modelled by `= none`.
-/

namespace TOIL

/-- Entry type from `types.ts`: `'work' | 'break'` (`brk` models `break`). -/
inductive EntryType
  | work
  | brk
deriving DecidableEq

/-- `TimeEntry` from `types.ts`. -/
structure TimeEntry where
  id : String
  startTime : Int
  endTime : Option Int
  type : EntryType
  projectId : Option String
  tagIds : List String
  notes : Option String
  targetDuration : Option Int
  isWorkingBreak : Bool
deriving DecidableEq

/-- `Project` from `types.ts`. -/
structure Project where
  id : String
  name : String
  color : String
  isArchived : Option Bool
deriving DecidableEq

/-- `Tag` from `types.ts`. -/
structure Tag where
  id : String
  name : String
  color : String
deriving DecidableEq

/-- The store state of `useTimeStore.ts`: entries, projects, tags. -/
structure TimeStore where
  entries : List TimeEntry
  projects : List Project
  tags : List Tag
deriving DecidableEq

/-- The initial store state: all three collections empty. -/
def emptyStore : TimeStore := ⟨[], [], []⟩

/-- `startEntry` targetDuration default: `25 * 60` for work, `5 * 60` for break. -/
def defaultTarget (ty : EntryType) : Int :=
  match ty with
  | .work => 25 * 60
  | .brk => 5 * 60

/-- The arguments of one `startEntry` call, together with the ambient
`Date.now()` reading and the freshly generated id. -/
structure StartArgs where
  now : Int
  newId : String
  type : EntryType
  projectId : Option String
  tagIds : List String
  targetDuration : Option Int
  isWorkingBreak : Option Bool
deriving DecidableEq

/-- The new entry created by `startEntry` (useTimeStore.ts lines 58-68). -/
def newEntryOf (a : StartArgs) : TimeEntry :=
  { id := a.newId
    startTime := a.now
    endTime := none
    type := a.type
    projectId := a.projectId
    tagIds := a.tagIds
    notes := none
    targetDuration := some (match a.targetDuration with
      | some t => t
      | none => defaultTarget a.type)
    isWorkingBreak := a.isWorkingBreak.getD false }

/-- Setting `endTime := now` at the `findIndex`-first entry with
`endTime === null`, as `startEntry`/`stopEntry` do; identity when no entry
is open. -/
def closeFirstOpen (now : Int) : List TimeEntry → List TimeEntry
  | [] => []
  | e :: rest =>
    if e.endTime = none then { e with endTime := some now } :: rest
    else e :: closeFirstOpen now rest

/-- `entries.findIndex(e => e.endTime === null) !== -1`. -/
def hasOpen (entries : List TimeEntry) : Bool :=
  entries.any fun e => e.endTime.isNone

/-- Number of entries with `endTime === null`. -/
def countOpen (entries : List TimeEntry) : Nat :=
  entries.countP fun e => e.endTime.isNone

/-- `startEntry` (useTimeStore.ts lines 38-72): close the first open entry
if one exists, then append the new open entry. -/
def startEntry (st : TimeStore) (a : StartArgs) : TimeStore :=
  { st with entries := closeFirstOpen a.now st.entries ++ [newEntryOf a] }

/-- `stopEntry` (useTimeStore.ts lines 74-84): if an open entry exists,
set its `endTime := now`; otherwise leave the state untouched. -/
def stopEntry (st : TimeStore) (now : Int) : TimeStore :=
  if hasOpen st.entries then { st with entries := closeFirstOpen now st.entries }
  else st

/-- `deleteProject` (useTimeStore.ts lines 114-118): filter the project out;
entries are not touched. -/
def deleteProject (st : TimeStore) (pid : String) : TimeStore :=
  { st with projects := st.projects.filter fun p => !(p.id = pid : Bool) }

/-- The payload of `importData`; `Option` models fields that may be
omitted (`undefined`) in the imported object. -/
structure ImportPayload where
  entries : Option (List TimeEntry)
  projects : Option (List Project)
  tags : Option (List Tag)
deriving DecidableEq

/-- `importData` (useTimeStore.ts lines 137-151):
`set({entries: data.entries || [], projects: data.projects || [],
tags: data.tags || []})` — wholesale replacement of all three collections. -/
def importData (_st : TimeStore) (data : ImportPayload) : TimeStore :=
  { entries := data.entries.getD []
    projects := data.projects.getD []
    tags := data.tags.getD [] }

/-- Fold a sequence of `startEntry` calls over a store state. -/
def applyStarts (ops : List StartArgs) (st : TimeStore) : TimeStore :=
  ops.foldl startEntry st

/-!
Interval aggregator, `Reports.tsx`.  The report range is `[rs, re]`, a day
bucket is `[ds, de]` (with `de` the `endOfDay` instant 23:59:59.999), and
`now` is the `Date.now()` reading.
-/

/-- JavaScript truthiness of a nullable number: `null` and `0` are falsy.
Used where the source tests `e.endTime` or defaults it with `||`. -/
def truthyTime : Option Int → Bool
  | none => false
  | some t => !(t = 0 : Bool)

/-- `e.endTime || Date.now()`: the effective end of an entry, the current
instant when the entry is open. -/
def effEnd (now : Int) (e : TimeEntry) : Int :=
  if truthyTime e.endTime then e.endTime.getD now else now

/-- date-fns `isWithinInterval`: the instant lies in the closed interval. -/
def isWithinInterval (t lo hi : Int) : Bool :=
  lo ≤ t && t ≤ hi

/-- The `filteredEntries` predicate (Reports.tsx lines 40-50): a running
entry is dropped when `now` is outside the range; otherwise keep entries
whose span overlaps `[rs, re]` (non-strict). -/
def inReportRange (now rs re : Int) (e : TimeEntry) : Bool :=
  if !truthyTime e.endTime && !isWithinInterval now rs re then false
  else e.startTime ≤ re && effEnd now e ≥ rs

/-- The `dayEntries` predicate (Reports.tsx lines 59-63): strict overlap
with the day bucket. -/
def overlapsDay (now ds de : Int) (e : TimeEntry) : Bool :=
  e.startTime < de && effEnd now e > ds

/-- The clipped duration of an entry within `[lo, hi]`, in seconds
(Reports.tsx lines 69-71 and 89-91):
`Math.max(0, (Math.min(end, hi) - Math.max(start, lo)) / 1000)`. -/
def clipSeconds (now lo hi : Int) (e : TimeEntry) : ℚ :=
  max 0 (((min (effEnd now e) hi - max e.startTime lo : Int) : ℚ) / 1000)

/-- One day's `workSeconds` of `barData` (Reports.tsx lines 53-80): clip
every in-range, day-overlapping `work` entry to the day bucket and sum. -/
def dayWorkSeconds (now rs re ds de : Int) (entries : List TimeEntry) : ℚ :=
  ((((entries.filter (inReportRange now rs re)).filter
      (overlapsDay now ds de)).filter
        fun e => (e.type = EntryType.work : Bool)).foldl
    (fun acc e => acc + clipSeconds now ds de e) 0)

/-- The contribution of a single entry to one day bucket of `barData`:
its clipped duration when it passes all three filters, zero otherwise. -/
def barContribution (now rs re ds de : Int) (e : TimeEntry) : ℚ :=
  if inReportRange now rs re e && overlapsDay now ds de e
      && (e.type = EntryType.work : Bool)
  then clipSeconds now ds de e else 0

/-- Accumulator of the `pieData` loop: the insertion-ordered project map
and the running `noProjectSeconds`. -/
structure PieAcc where
  projectMap : List (String × ℚ)
  noProjectSeconds : ℚ
deriving DecidableEq

/-- `projectMap.set(pid, (projectMap.get(pid) || 0) + seconds)`: add to the
value at the key, keeping first-insertion order, appending a new key. -/
def upsert (k : String) (v : ℚ) : List (String × ℚ) → List (String × ℚ)
  | [] => [(k, v)]
  | kv :: rest =>
    if kv.1 = k then (kv.1, kv.2 + v) :: rest
    else kv :: upsert k v rest

/-- One iteration of the `pieData` loop (Reports.tsx lines 87-98): clip the
entry to the range; a truthy `projectId` accumulates under its key, a
missing (or empty-string, falsy) one into `noProjectSeconds`. -/
def pieStep (now rs re : Int) (acc : PieAcc) (e : TimeEntry) : PieAcc :=
  let seconds := clipSeconds now rs re e
  match e.projectId with
  | some pid =>
    if pid = "" then { acc with noProjectSeconds := acc.noProjectSeconds + seconds }
    else { acc with projectMap := upsert pid seconds acc.projectMap }
  | none => { acc with noProjectSeconds := acc.noProjectSeconds + seconds }

/-- The fold of the `pieData` loop over the in-range `work` entries. -/
def pieFold (now rs re : Int) (entries : List TimeEntry) : PieAcc :=
  ((entries.filter (inReportRange now rs re)).filter
      fun e => (e.type = EntryType.work : Bool)).foldl (pieStep now rs re) ⟨[], 0⟩

/-- `projects.find(p => p.id === pid)`. -/
def findProject (projects : List Project) (pid : String) : Option Project :=
  projects.find? fun p => (p.id = pid : Bool)

/-- JavaScript `s || d` on a nullable string: `undefined` and `""` fall
back to the default. -/
def orDefault (s : Option String) (d : String) : String :=
  match s with
  | some v => if v = "" then d else v
  | none => d

/-- `Number(x.toFixed(2))`: round to two decimal places. -/
def round2 (q : ℚ) : ℚ :=
  ((round (q * 100) : ℤ) : ℚ) / 100

/-- One slice of the pie chart data. -/
structure PieSlice where
  name : String
  value : ℚ
  color : String
deriving DecidableEq

/-- `pieData` (Reports.tsx lines 83-114): per-project totals in hours, the
name and color resolved through the project list (`'Unknown'`/`'#999'`
when unresolvable), plus a `'No Project'` slice when `noProjectSeconds`
exceeds 60. -/
def pieData (now rs re : Int) (entries : List TimeEntry)
    (projects : List Project) : List PieSlice :=
  let acc := pieFold now rs re entries
  let data := acc.projectMap.map fun kv =>
    let project := findProject projects kv.1
    { name := orDefault (project.map Project.name) "Unknown"
      value := round2 (kv.2 / 3600)
      color := orDefault (project.map Project.color) "#999" : PieSlice }
  if acc.noProjectSeconds > 60 then
    data ++ [{ name := "No Project"
               value := round2 (acc.noProjectSeconds / 3600)
               color := "#ccc" : PieSlice }]
  else data

/-- The contribution of a single entry to the `pieData` totals (its key's
bucket or `noProjectSeconds`): the range-clipped duration when it passes
the filters, zero otherwise. -/
def pieContribution (now rs re : Int) (e : TimeEntry) : ℚ :=
  if inReportRange now rs re e && (e.type = EntryType.work : Bool)
  then clipSeconds now rs re e else 0

/-- The value found at a key of the project map, zero when absent
(`projectMap.get(pid) || 0`). -/
def lookupTotal (m : List (String × ℚ)) (k : String) : ℚ :=
  match m.find? (fun kv => (kv.1 = k : Bool)) with
  | some kv => kv.2
  | none => 0

/-!
Same-day live stats, `Dashboard.tsx`.  `dayStart` is the `startOfDay`
instant of "today"; `isToday` holds for instants within the calendar day.
-/

/-- date-fns `isToday(t)`: `t` falls on the calendar day starting at
`dayStart` (one day is 86400000 ms). -/
def isTodayTs (dayStart t : Int) : Bool :=
  dayStart ≤ t && t < dayStart + 86400000

/-- date-fns `differenceInSeconds(a, b)`: millisecond difference divided
by 1000, truncated toward zero. -/
def differenceInSeconds (a b : Int) : Int :=
  Int.tdiv (a - b) 1000

/-- The category argument of `calculateTotalSeconds`. -/
inductive StatCategory
  | active
  | rest
deriving DecidableEq

/-- The category filter of `calculateTotalSeconds` (Dashboard.tsx lines
90-96): `active` keeps `work` entries and working breaks, `rest` keeps
the remaining breaks. -/
def inCategory (cat : StatCategory) (e : TimeEntry) : Bool :=
  match cat with
  | .active => (e.type = EntryType.work : Bool)
      || ((e.type = EntryType.brk : Bool) && e.isWorkingBreak)
  | .rest => (e.type = EntryType.brk : Bool) && !e.isWorkingBreak

/-- `calculateTotalSeconds` (Dashboard.tsx lines 86-104): over the entries
whose `startTime` falls on today, keep the category and sum the full
(unclipped) durations `differenceInSeconds(endTime || now, startTime)`.
In Dashboard.tsx the `isToday` day and `now` come from the same render, so
the day starting at `dayStart` always contains `now`; `dayStart` is a
parameter here and concrete statements instantiate the pair consistently
(`dayStart ≤ now < dayStart + 86400000`). -/
def calculateTotalSeconds (now dayStart : Int) (entries : List TimeEntry)
    (cat : StatCategory) : Int :=
  ((entries.filter fun e => isTodayTs dayStart e.startTime).filter
      (inCategory cat)).foldl
    (fun acc e => acc + differenceInSeconds (effEnd now e) e.startTime) 0

/-- Following the specification's words (§4.2 "Active vs rest totals"): the
same-day totals computed with the clip formula against the single day's
bounds `[ds, de]`, `effective_end` defaulting to `now` for the open entry.
Stated for comparison with `calculateTotalSeconds`. -/
def specSameDayTotal (now ds de : Int) (entries : List TimeEntry)
    (cat : StatCategory) : ℚ :=
  (entries.filter (inCategory cat)).foldl
    (fun acc e => acc + clipSeconds now ds de e) 0

/-! Helper lemmas. -/

theorem foldl_add_eq_sum {α M : Type} [AddCommMonoid M] (f : α → M) :
    ∀ (l : List α) (a : M),
      l.foldl (fun acc x => acc + f x) a = a + (l.map f).sum := by
  intro l
  induction l with
  | nil => intro a; simp
  | cons x xs ih =>
    intro a
    simp only [List.foldl_cons, List.map_cons, List.sum_cons, ih, add_assoc]

theorem sum_map_filter_if {α M : Type} [AddCommMonoid M] (p : α → Bool)
    (f : α → M) :
    ∀ l : List α,
      ((l.filter p).map f).sum = (l.map fun x => if p x then f x else 0).sum := by
  intro l
  induction l with
  | nil => rfl
  | cons x xs ih =>
    by_cases h : p x <;> simp [List.filter_cons, h, ih]

theorem countOpen_append (l₁ l₂ : List TimeEntry) :
    countOpen (l₁ ++ l₂) = countOpen l₁ + countOpen l₂ :=
  List.countP_append _ _ _

theorem countOpen_eq_zero_of_not_hasOpen {l : List TimeEntry}
    (h : hasOpen l = false) : countOpen l = 0 := by
  induction l with
  | nil => rfl
  | cons e rest ih =>
    simp only [hasOpen, List.any_cons, Bool.or_eq_false_iff] at h
    simp only [countOpen, List.countP_cons, h.1]
    exact ih (by simpa [hasOpen] using h.2)

theorem closeFirstOpen_of_not_hasOpen (now : Int) :
    ∀ {l : List TimeEntry}, hasOpen l = false → closeFirstOpen now l = l := by
  intro l
  induction l with
  | nil => intro _; rfl
  | cons e rest ih =>
    intro h
    simp only [hasOpen, List.any_cons, Bool.or_eq_false_iff] at h
    have he : ¬e.endTime = none := by
      intro hn
      rw [hn] at h
      simp at h
    simp only [closeFirstOpen, if_neg he]
    rw [ih (by simpa [hasOpen] using h.2)]

theorem countOpen_closeFirstOpen_of_hasOpen (now : Int) :
    ∀ {l : List TimeEntry}, hasOpen l = true →
      countOpen (closeFirstOpen now l) + 1 = countOpen l := by
  intro l
  induction l with
  | nil => intro h; simp [hasOpen] at h
  | cons e rest ih =>
    intro h
    by_cases he : e.endTime = none
    · simp [closeFirstOpen, he, countOpen, List.countP_cons,
        Option.isNone_iff_eq_none]
    · have hr : hasOpen rest = true := by
        simpa [hasOpen, Option.isNone_iff_eq_none, he] using h
      simp only [closeFirstOpen, if_neg he, countOpen, List.countP_cons]
      have := ih hr
      simp only [countOpen] at this
      omega

theorem countOpen_startEntry_le {st : TimeStore} (a : StartArgs)
    (h : countOpen st.entries ≤ 1) :
    countOpen (startEntry st a).entries ≤ 1 ∧
      countOpen (startEntry st a).entries = 1 := by
  have hnew : countOpen [newEntryOf a] = 1 := by
    simp [countOpen, List.countP_cons, newEntryOf]
  have hsplit : countOpen (startEntry st a).entries
      = countOpen (closeFirstOpen a.now st.entries) + 1 := by
    simp only [startEntry, countOpen_append, hnew]
  cases hop : hasOpen st.entries with
  | false =>
    rw [hsplit, closeFirstOpen_of_not_hasOpen a.now hop,
      countOpen_eq_zero_of_not_hasOpen hop]
    exact ⟨le_refl 1, rfl⟩
  | true =>
    have h1 := countOpen_closeFirstOpen_of_hasOpen a.now hop
    rw [hsplit]
    omega

theorem hasOpen_of_mem_open (l : List TimeEntry) (e : TimeEntry)
    (hm : e ∈ l) (he : e.endTime = none) : hasOpen l = true := by
  simp only [hasOpen, List.any_eq_true]
  exact ⟨e, hm, by simp [Option.isNone_iff_eq_none, he]⟩

theorem closeFirstOpen_append_open (now : Int) {e : TimeEntry}
    (he : e.endTime = none) :
    ∀ (l₁ : List TimeEntry) (l₂ : List TimeEntry),
      (∀ x ∈ l₁, x.endTime ≠ none) →
      closeFirstOpen now (l₁ ++ e :: l₂)
        = l₁ ++ { e with endTime := some now } :: l₂ := by
  intro l₁
  induction l₁ with
  | nil =>
    intro l₂ _
    simp [closeFirstOpen, he]
  | cons x xs ih =>
    intro l₂ hcl
    have hx : ¬x.endTime = none := hcl x (List.mem_cons_self x xs)
    simp only [List.cons_append, closeFirstOpen, if_neg hx]
    exact congrArg (List.cons x) (ih l₂ fun y hy => hcl y (List.mem_cons_of_mem x hy))

theorem map_sum_congr {α M : Type} [AddCommMonoid M] {f g : α → M}
    (h : ∀ x, f x = g x) (l : List α) : (l.map f).sum = (l.map g).sum := by
  induction l with
  | nil => rfl
  | cons x xs ih => simp [h x, ih]

theorem sum_map_filter2 {α M : Type} [AddCommMonoid M] (p q : α → Bool)
    (f : α → M) (l : List α) :
    (((l.filter p).filter q).map f).sum
      = (l.map fun x => if p x && q x then f x else 0).sum := by
  rw [sum_map_filter_if q f (l.filter p),
    sum_map_filter_if p (fun x => if q x then f x else 0) l]
  exact map_sum_congr
    (fun x => by cases hp : p x <;> cases hq : q x <;> simp [hp, hq]) l

theorem sum_map_filter3 {α M : Type} [AddCommMonoid M] (p q r : α → Bool)
    (f : α → M) (l : List α) :
    ((((l.filter p).filter q).filter r).map f).sum
      = (l.map fun x => if p x && q x && r x then f x else 0).sum := by
  rw [sum_map_filter_if r f ((l.filter p).filter q),
    sum_map_filter2 p q (fun x => if r x then f x else 0) l]
  exact map_sum_congr
    (fun x => by
      cases hp : p x <;> cases hq : q x <;> cases hr : r x <;>
        simp [hp, hq, hr]) l

theorem sum_map_filter2_if {α M : Type} [AddCommMonoid M] (p q r : α → Bool)
    (f : α → M) (l : List α) :
    (((l.filter p).filter q).map fun x => if r x then f x else 0).sum
      = (l.map fun x => if p x && q x && r x then f x else 0).sum := by
  rw [sum_map_filter2 p q (fun x => if r x then f x else 0) l]
  exact map_sum_congr
    (fun x => by
      cases hp : p x <;> cases hq : q x <;> cases hr : r x <;>
        simp [hp, hq, hr]) l

theorem effEnd_of_not_truthy {now : Int} {e : TimeEntry}
    (h : truthyTime e.endTime = false) : effEnd now e = now := by
  simp [effEnd, h]

theorem clipSeconds_nonneg (now lo hi : Int) (e : TimeEntry) :
    0 ≤ clipSeconds now lo hi e :=
  le_max_left 0 _

theorem clipSeconds_eq_zero {now lo hi : Int} {e : TimeEntry}
    (h : min (effEnd now e) hi ≤ max e.startTime lo) :
    clipSeconds now lo hi e = 0 := by
  unfold clipSeconds
  have hz : ((min (effEnd now e) hi - max e.startTime lo : Int) : ℚ) ≤ 0 := by
    exact_mod_cast sub_nonpos.mpr h
  have hq : ((min (effEnd now e) hi - max e.startTime lo : Int) : ℚ) / 1000 ≤ 0 := by
    linarith
  exact max_eq_left hq

theorem inReportRange_false_iff (now rs re : Int) (e : TimeEntry) :
    inReportRange now rs re e = false ↔
      (truthyTime e.endTime = false ∧ ¬(rs ≤ now ∧ now ≤ re))
      ∨ re < e.startTime ∨ effEnd now e < rs := by
  unfold inReportRange isWithinInterval
  cases ht : truthyTime e.endTime
  · by_cases hw : rs ≤ now ∧ now ≤ re
    · simp [hw, hw.1, hw.2, not_le, Bool.and_eq_false_iff,
        decide_eq_false_iff_not] <;> omega
    · rcases not_and_or.mp hw with h | h <;>
        simp [hw, h, not_le, Bool.and_eq_false_iff, decide_eq_false_iff_not]
  · simp [not_le, Bool.and_eq_false_iff, decide_eq_false_iff_not] <;> omega

theorem overlapsDay_false_iff (now ds de : Int) (e : TimeEntry) :
    overlapsDay now ds de e = false ↔
      de ≤ e.startTime ∨ effEnd now e ≤ ds := by
  unfold overlapsDay
  simp [not_lt, Bool.and_eq_false_iff, decide_eq_false_iff_not] <;> omega

theorem clip_zero_of_inReportRange_false {now rs re lo hi : Int} {e : TimeEntry}
    (hlo : rs ≤ lo) (hhi : hi ≤ re) (hnow : now ≤ re)
    (h : inReportRange now rs re e = false) :
    clipSeconds now lo hi e = 0 := by
  apply clipSeconds_eq_zero
  rcases (inReportRange_false_iff now rs re e).mp h with ⟨ht, hw⟩ | h | h
  · have hE : effEnd now e = now := effEnd_of_not_truthy ht
    have hlt : now < rs := by
      rcases not_and_or.mp hw with h' | h'
      · omega
      · exact absurd hnow h'
    rw [hE]
    omega
  · omega
  · omega

theorem barContribution_eq_clip {now rs re ds de : Int} {e : TimeEntry}
    (hty : e.type = EntryType.work)
    (hds : rs ≤ ds) (hde : de ≤ re) (hnow : now ≤ re) :
    barContribution now rs re ds de e = clipSeconds now ds de e := by
  unfold barContribution
  by_cases h1 : inReportRange now rs re e = true
  · by_cases h2 : overlapsDay now ds de e = true
    · simp [h1, h2, hty]
    · have h2f : overlapsDay now ds de e = false := by
        simpa using h2
      have hle : min (effEnd now e) de ≤ max e.startTime ds := by
        rcases (overlapsDay_false_iff now ds de e).mp h2f with h | h <;> omega
      rw [if_neg (by simp [h2f]), clipSeconds_eq_zero hle]
  · have h1f : inReportRange now rs re e = false := by
      simpa using h1
    rw [if_neg (by simp [h1f]),
      clip_zero_of_inReportRange_false hds hde hnow h1f]

theorem pieContribution_eq_clip {now rs re : Int} {e : TimeEntry}
    (hty : e.type = EntryType.work) (hnow : now ≤ re) :
    pieContribution now rs re e = clipSeconds now rs re e := by
  unfold pieContribution
  by_cases h1 : inReportRange now rs re e = true
  · simp [h1, hty]
  · have h1f : inReportRange now rs re e = false := by
      simpa using h1
    rw [if_neg (by simp [h1f]),
      clip_zero_of_inReportRange_false le_rfl le_rfl hnow h1f]

theorem dayWorkSeconds_eq_sum (now rs re ds de : Int) (l : List TimeEntry) :
    dayWorkSeconds now rs re ds de l
      = (l.map (barContribution now rs re ds de)).sum := by
  unfold dayWorkSeconds barContribution
  rw [foldl_add_eq_sum, zero_add, sum_map_filter3]

theorem lookupTotal_nil (k : String) : lookupTotal [] k = 0 := rfl

theorem lookupTotal_cons (a : String) (b : ℚ) (m : List (String × ℚ))
    (k : String) :
    lookupTotal ((a, b) :: m) k = if a = k then b else lookupTotal m k := by
  by_cases h : a = k <;> simp [lookupTotal, List.find?, h]

theorem lookupTotal_upsert_self (k : String) (v : ℚ) :
    ∀ m : List (String × ℚ),
      lookupTotal (upsert k v m) k = lookupTotal m k + v := by
  intro m
  induction m with
  | nil => simp [upsert, lookupTotal_cons, lookupTotal_nil]
  | cons kv rest ih =>
    obtain ⟨a, b⟩ := kv
    by_cases h : a = k
    · simp [upsert, h, lookupTotal_cons]
    · simp [upsert, h, lookupTotal_cons, ih]

theorem lookupTotal_upsert_ne {k k' : String} (v : ℚ) (h : k' ≠ k) :
    ∀ m : List (String × ℚ),
      lookupTotal (upsert k' v m) k = lookupTotal m k := by
  intro m
  induction m with
  | nil => simp [upsert, lookupTotal_cons, lookupTotal_nil, h]
  | cons kv rest ih =>
    obtain ⟨a, b⟩ := kv
    by_cases hh : a = k'
    · subst hh
      simp [upsert, lookupTotal_cons, h]
    · simp [upsert, hh, lookupTotal_cons, ih]

theorem lookupTotal_pieStep_fold (now rs re : Int) (k : String) (hk : k ≠ "") :
    ∀ (l : List TimeEntry) (acc : PieAcc),
      lookupTotal ((l.foldl (pieStep now rs re) acc).projectMap) k
        = lookupTotal acc.projectMap k
          + (l.map fun e =>
              if (e.projectId = some k : Bool)
              then clipSeconds now rs re e else 0).sum := by
  intro l
  induction l with
  | nil => intro acc; simp
  | cons e xs ih =>
    intro acc
    simp only [List.foldl_cons, List.map_cons, List.sum_cons]
    rw [ih]
    have hstep : lookupTotal (pieStep now rs re acc e).projectMap k
        = lookupTotal acc.projectMap k
          + (if (e.projectId = some k : Bool)
             then clipSeconds now rs re e else 0) := by
      unfold pieStep
      cases hp : e.projectId with
      | none => simp [hp]
      | some pid =>
        by_cases hpe : pid = ""
        · subst hpe
          have : ¬(some "" = some k) := by
            intro hc
            exact hk (Option.some.inj hc).symm
          simp [hp, this]
        · simp only [hp, if_neg hpe]
          by_cases hpk : pid = k
          · subst hpk
            simp [lookupTotal_upsert_self]
          · have : ¬(some pid = some k) := by
              intro hc
              exact hpk (Option.some.inj hc)
            simp [lookupTotal_upsert_ne _ hpk, this]
    rw [hstep, add_assoc]

theorem findProject_delete_none (st : TimeStore) (pid : String) :
    findProject (deleteProject st pid).projects pid = none := by
  apply List.find?_eq_none.mpr
  intro p hp
  have hmem := List.mem_filter.mp hp
  simpa using hmem.2

/-! Concrete sample data shared by the witnesses below. -/

/-- A sample `startEntry` call at instant 1000. -/
def sampleArgs : StartArgs := ⟨1000, "id1", .work, none, [], none, none⟩

/-- A sample `startEntry` call at instant 2000 (a working break). -/
def sampleArgs2 : StartArgs := ⟨2000, "id2", .brk, none, [], none, some true⟩

/-- A sample open entry. -/
def openE : TimeEntry := ⟨"o", 100, none, .work, none, [], none, none, false⟩

/-- A sample closed entry. -/
def closedE : TimeEntry := ⟨"c", 0, some 50, .work, none, [], none, none, false⟩

/-- A store with one closed entry and no open entry. -/
def storeNoOpen : TimeStore := ⟨[closedE], [], []⟩

/-- A store whose second entry is open. -/
def storeWithOpen : TimeStore := ⟨[closedE, openE], [], []⟩

/-- A closed work entry lying before a mid-day range start: inside the first
(fortnight-style) day bucket but outside the report range. -/
def gapEntry : TimeEntry := ⟨"g", 0, some 1000000, .work, none, [], none, none, false⟩

/-- A closed work entry spanning 23:30 of day one to 00:30 of day two. -/
def spanEntry : TimeEntry :=
  ⟨"s", 84600000, some 88200000, .work, none, [], none, none, false⟩

/-- A closed work entry started at 23:00 of the day starting at 0 and stopped
at 01:00 of the next day (an ordinary startEntry-before-midnight,
stopEntry-after-midnight run). -/
def crossMidnightEntry : TimeEntry :=
  ⟨"e", 82800000, some 90000000, .work, none, [], none, none, false⟩

/-- The sample project P. -/
def projP : Project := ⟨"P", "Proj", "#f00", none⟩

/-- A one-hour work entry on project P. -/
def pw1 : TimeEntry := ⟨"w1", 1000000, some 4600000, .work, some "P", [], none, none, false⟩

/-- A two-hour work entry on project P. -/
def pw2 : TimeEntry := ⟨"w2", 5000000, some 12200000, .work, some "P", [], none, none, false⟩

/-- A thirty-minute work entry on project P. -/
def pw3 : TimeEntry := ⟨"w3", 13000000, some 14800000, .work, some "P", [], none, none, false⟩

/-- A 50-second work entry with no project. -/
def npSmall : TimeEntry := ⟨"n1", 20000000, some 20050000, .work, none, [], none, none, false⟩

/-- A 61-second work entry with no project. -/
def npBig : TimeEntry := ⟨"n2", 20000000, some 20061000, .work, none, [], none, none, false⟩

/-! The claims. -/

/-- C1: for every sequence of `startEntry` calls starting from the empty store,
at most one entry in the collection has `endTime = none` at any observation
point; moreover after any nonempty sequence the freshly appended entry is the
single open one, so the count is exactly one. -/
theorem startEntry_at_most_one_open :
    (∀ ops : List StartArgs, countOpen (applyStarts ops emptyStore).entries ≤ 1)
  ∧ (∀ (ops : List StartArgs) (a : StartArgs),
      countOpen (applyStarts (ops ++ [a]) emptyStore).entries = 1) := by
  have key : ∀ (ops : List StartArgs) (st : TimeStore), countOpen st.entries ≤ 1 →
      countOpen (applyStarts ops st).entries ≤ 1 := by
    intro ops
    induction ops with
    | nil => intro st h; exact h
    | cons a rest ih =>
      intro st h
      exact ih (startEntry st a) (countOpen_startEntry_le a h).1
  have hempty : countOpen emptyStore.entries ≤ 1 := by
    simp [emptyStore, countOpen]
  constructor
  · intro ops
    exact key ops emptyStore hempty
  · intro ops a
    have h1 : countOpen (applyStarts ops emptyStore).entries ≤ 1 :=
      key ops emptyStore hempty
    have h2 : applyStarts (ops ++ [a]) emptyStore
        = startEntry (applyStarts ops emptyStore) a := by
      simp [applyStarts, List.foldl_append]
    rw [h2]
    exact (countOpen_startEntry_le a h1).2

/-- C6: for every prior store state, `importData` replaces all three collections
wholesale (the result does not depend on the prior state), omitted fields
default to empty collections, and importing three empty collections leaves the
store entirely empty. -/
theorem importData_wholesale_replace (st st' : TimeStore) (data : ImportPayload) :
    importData st data = importData st' data
  ∧ importData st data
      = ⟨data.entries.getD [], data.projects.getD [], data.tags.getD []⟩
  ∧ importData st ⟨some [], some [], some []⟩ = emptyStore
  ∧ importData st ⟨none, none, none⟩ = emptyStore :=
  ⟨rfl, rfl, rfl, rfl⟩

/-- C7: from any state with no open entry, `startEntry` then immediately
`stopEntry` appends exactly one entry, which is closed with `endTime = now₂`
and `startTime = now₁ ≤ now₂`. -/
theorem start_then_stop_one_closed (st : TimeStore) (a : StartArgs) (t2 : Int)
    (hno : hasOpen st.entries = false) (hle : a.now ≤ t2) :
    (stopEntry (startEntry st a) t2).entries
        = st.entries ++ [{ newEntryOf a with endTime := some t2 }]
  ∧ ({ newEntryOf a with endTime := some t2 } : TimeEntry).startTime = a.now
  ∧ ({ newEntryOf a with endTime := some t2 } : TimeEntry).endTime = some t2
  ∧ a.now ≤ t2 := by
  have hstart : (startEntry st a).entries = st.entries ++ [newEntryOf a] := by
    simp only [startEntry]
    rw [closeFirstOpen_of_not_hasOpen a.now hno]
  have hopen : hasOpen (startEntry st a).entries = true := by
    rw [hstart]
    exact hasOpen_of_mem_open _ (newEntryOf a) (by simp) rfl
  have hclosed : ∀ x ∈ st.entries, x.endTime ≠ none := by
    intro x hx hn
    rw [hasOpen_of_mem_open st.entries x hx hn] at hno
    exact Bool.noConfusion hno
  refine ⟨?_, rfl, rfl, hle⟩
  unfold stopEntry
  rw [if_pos hopen, hstart]
  exact closeFirstOpen_append_open t2 rfl st.entries [] hclosed

/-- C7 witness at a concrete input. -/
theorem start_then_stop_one_closed_witness :
    (stopEntry (startEntry emptyStore sampleArgs) 2000).entries
        = emptyStore.entries ++ [{ newEntryOf sampleArgs with endTime := some 2000 }]
  ∧ ({ newEntryOf sampleArgs with endTime := some 2000 } : TimeEntry).startTime
      = sampleArgs.now
  ∧ ({ newEntryOf sampleArgs with endTime := some 2000 } : TimeEntry).endTime
      = some 2000
  ∧ sampleArgs.now ≤ 2000 :=
  start_then_stop_one_closed emptyStore sampleArgs 2000 rfl (by decide)

/-- C8: `stopEntry` is a no-op on the whole store state when no entry is open,
and otherwise sets the (first) open entry's `endTime` to the current instant,
leaving every other entry and the other collections unchanged. -/
theorem stopEntry_close_or_noop (st : TimeStore) (now : Int) :
    (hasOpen st.entries = false → stopEntry st now = st)
  ∧ ∀ (l₁ : List TimeEntry) (e : TimeEntry) (l₂ : List TimeEntry),
      st.entries = l₁ ++ e :: l₂ → e.endTime = none →
      (∀ x ∈ l₁, x.endTime ≠ none) →
      stopEntry st now
        = { st with entries := l₁ ++ { e with endTime := some now } :: l₂ } := by
  constructor
  · intro h
    simp [stopEntry, h]
  · intro l₁ e l₂ hsplit he hcl
    have hopen : hasOpen st.entries = true := by
      rw [hsplit]
      exact hasOpen_of_mem_open _ e (by simp) he
    unfold stopEntry
    rw [if_pos hopen, hsplit, closeFirstOpen_append_open now he l₁ l₂ hcl]

/-- C8 witness at concrete inputs: one store with no open entry, one with an
open entry. -/
theorem stopEntry_close_or_noop_witness :
    stopEntry storeNoOpen 500 = storeNoOpen
  ∧ stopEntry storeWithOpen 500
      = { storeWithOpen with
            entries := [closedE] ++ { openE with endTime := some 500 } :: [] } :=
  ⟨(stopEntry_close_or_noop storeNoOpen 500).1 rfl,
   (stopEntry_close_or_noop storeWithOpen 500).2 [closedE] openE [] rfl rfl
     (by decide)⟩

/-- C10: when `startEntry` runs while an entry is open, the `endTime` written
into the previously open entry equals the `startTime` of the newly created
entry — both are the same clock reading `now`, so there is never a gap or an
overlap at the switch. -/
theorem startEntry_switch_seam (st : TimeStore) (a : StartArgs)
    (l₁ : List TimeEntry) (e : TimeEntry) (l₂ : List TimeEntry)
    (hsplit : st.entries = l₁ ++ e :: l₂) (he : e.endTime = none)
    (hcl : ∀ x ∈ l₁, x.endTime ≠ none) :
    (startEntry st a).entries
      = l₁ ++ { e with endTime := some a.now } :: (l₂ ++ [newEntryOf a])
  ∧ ({ e with endTime := some a.now } : TimeEntry).endTime
      = some (newEntryOf a).startTime := by
  constructor
  · simp only [startEntry]
    rw [hsplit, closeFirstOpen_append_open a.now he l₁ l₂ hcl]
    simp [List.append_assoc, List.cons_append]
  · rfl

/-- C10 witness at a concrete input. -/
theorem startEntry_switch_seam_witness :
    (startEntry storeWithOpen sampleArgs2).entries
      = [closedE] ++ { openE with endTime := some sampleArgs2.now }
          :: ([] ++ [newEntryOf sampleArgs2])
  ∧ ({ openE with endTime := some sampleArgs2.now } : TimeEntry).endTime
      = some (newEntryOf sampleArgs2).startTime :=
  startEntry_switch_seam storeWithOpen sampleArgs2 [closedE] openE [] rfl rfl
    (by decide)

/-- C2 counterexample: with a fortnight-style report range starting mid-day
(range [50000000, 200000000], observed at now = 100000000) and its first day
bucket [0, 86399999], the closed work entry [0, 1000000] lies before the range
start, so the code drops it from every bucket and it contributes 0, while the
claimed clip formula against the bucket window gives 1000 seconds. -/
theorem clip_formula_counterexample :
    barContribution 100000000 50000000 200000000 0 86399999 gapEntry = 0
  ∧ max 0 (((min (effEnd 100000000 gapEntry) 86399999
        - max gapEntry.startTime 0 : Int) : ℚ) / 1000) = 1000
  ∧ ((0 : ℚ) ≠ 1000) := by
  refine ⟨by decide,
    by norm_num [effEnd, truthyTime, gapEntry, min_def, max_def],
    by norm_num⟩

/-- C2 (amended): provided the bucket window [ds, de] lies inside the report
range [rs, re] and the observation instant does not exceed the range end —
both hold for the calendar day/week/month periods, while the fortnight range
starts mid-day so its first day bucket extends outside the range — every work
entry's contribution to a bucket equals
max(0, (min(effective_end, W_end) − max(startTime, W_start)) / 1000), with
effective_end the endTime when present (and truthy) and now otherwise; a day
bucket's total is the sum of these contributions, and a contribution is never
negative. -/
theorem clip_formula_contribution (now rs re ds de : Int) (e : TimeEntry)
    (hty : e.type = EntryType.work)
    (hds : rs ≤ ds) (hde : de ≤ re) (hnow : now ≤ re) :
    barContribution now rs re ds de e
        = max 0 (((min (effEnd now e) de - max e.startTime ds : Int) : ℚ) / 1000)
  ∧ pieContribution now rs re e
        = max 0 (((min (effEnd now e) re - max e.startTime rs : Int) : ℚ) / 1000)
  ∧ (∀ l : List TimeEntry,
      dayWorkSeconds now rs re ds de l
        = (l.map (barContribution now rs re ds de)).sum)
  ∧ 0 ≤ barContribution now rs re ds de e := by
  refine ⟨barContribution_eq_clip hty hds hde hnow,
    pieContribution_eq_clip hty hnow,
    fun l => dayWorkSeconds_eq_sum now rs re ds de l, ?_⟩
  unfold barContribution
  split
  · exact clipSeconds_nonneg _ _ _ _
  · exact le_refl 0

/-- C2 witness at a concrete input. -/
theorem clip_formula_contribution_witness :
    barContribution 100 0 86399999 0 86399999 closedE
        = max 0 (((min (effEnd 100 closedE) 86399999
            - max closedE.startTime 0 : Int) : ℚ) / 1000)
  ∧ pieContribution 100 0 86399999 closedE
        = max 0 (((min (effEnd 100 closedE) 86399999
            - max closedE.startTime 0 : Int) : ℚ) / 1000)
  ∧ (∀ l : List TimeEntry,
      dayWorkSeconds 100 0 86399999 0 86399999 l
        = (l.map (barContribution 100 0 86399999 0 86399999)).sum)
  ∧ 0 ≤ barContribution 100 0 86399999 0 86399999 closedE :=
  clip_formula_contribution 100 0 86399999 0 86399999 closedE rfl
    (by norm_num) (by norm_num) (by norm_num)

/-- C3 counterexample: day buckets end at endOfDay = 23:59:59.999, so the
23:30–00:30 work entry contributes 1799999/1000 seconds to the first day
bucket, not the claimed exact 30 minutes (1800 seconds). -/
theorem midnight_span_counterexample :
    dayWorkSeconds 100000000 0 172799999 0 86399999 [spanEntry] = 1799999 / 1000
  ∧ ¬((1799999 : ℚ) / 1000 = 1800) := by
  constructor
  · rw [dayWorkSeconds_eq_sum]
    norm_num [barContribution, inReportRange, overlapsDay, isWithinInterval,
      effEnd, truthyTime, clipSeconds, spanEntry, min_def, max_def]
  · norm_num

/-- C3 (amended): the 23:30–00:30 work entry contributes 30 minutes minus one
millisecond (1799999/1000 seconds) to the first day bucket — day buckets end
at endOfDay = 23:59:59.999, losing the final millisecond of the day — and
exactly 30 minutes (1800 seconds) to the second, so the two bucket
contributions sum to one millisecond less than the entry's 60-minute total. -/
theorem midnight_span_bucket_totals :
    dayWorkSeconds 100000000 0 172799999 0 86399999 [spanEntry] = 1799999 / 1000
  ∧ dayWorkSeconds 100000000 0 172799999 86400000 172799999 [spanEntry] = 1800
  ∧ (1799999 / 1000 + 1800 : ℚ) = 3600 - 1 / 1000 := by
  refine ⟨?_, ?_, by norm_num⟩ <;>
    rw [dayWorkSeconds_eq_sum] <;>
    norm_num [barContribution, inReportRange, overlapsDay, isWithinInterval,
      effEnd, truthyTime, clipSeconds, spanEntry, min_def, max_def]

/-- C4 counterexample: observed at now = 130000000, which lies within the day
[86400000, 86400000 + 86400000) (first conjunct), a closed work entry started
yesterday at 23:00 and stopped today at 01:00 is excluded from today's active
total — Dashboard filters by isToday(startTime) — so the code returns 0
seconds, while the claimed clip formula against the day's bounds yields the
entry's in-day hour, 3600 seconds. -/
theorem sameDay_clip_counterexample :
    ((86400000 : Int) ≤ 130000000 ∧ (130000000 : Int) < 86400000 + 86400000)
  ∧ calculateTotalSeconds 130000000 86400000 [crossMidnightEntry]
      StatCategory.active = 0
  ∧ specSameDayTotal 130000000 86400000 172799999 [crossMidnightEntry]
      StatCategory.active = 3600
  ∧ ¬((0 : ℚ) = 3600) := by
  refine ⟨by norm_num, by decide,
    by norm_num [specSameDayTotal, inCategory, clipSeconds, effEnd, truthyTime,
      crossMidnightEntry, min_def, max_def],
    by norm_num⟩

/-- C4 (amended): the categories are as claimed — active is work entries plus
working breaks, rest is the remaining breaks — but each total ranges over the
entries whose startTime falls on the current day and adds the full truncated
duration (effective_end − startTime)/1000, with effective_end defaulting to
now for the open entry; no clipping against the day's bounds is applied. -/
theorem calculateTotalSeconds_unclipped (now dayStart : Int)
    (entries : List TimeEntry) (cat : StatCategory) :
    calculateTotalSeconds now dayStart entries cat
      = (entries.map fun e =>
          if isTodayTs dayStart e.startTime && inCategory cat e
          then differenceInSeconds (effEnd now e) e.startTime else 0).sum := by
  unfold calculateTotalSeconds
  rw [foldl_add_eq_sum, zero_add]
  exact sum_map_filter2 _ _ _ entries

/-- C5: per-project totals key range-clipped work durations by projectId — for
every nonempty key, the project-map total equals the sum of clipped durations
of the in-range work entries carrying that key; concretely, three work entries
of 1h, 2h and 30m on project P yield the single slice (Proj, 3.5h), a
50-second unassigned residue stays below the 60-second threshold and is
suppressed, and a 61-second one appears as a No Project slice. -/
theorem pieData_project_totals :
    (∀ (now rs re : Int) (entries : List TimeEntry) (k : String), k ≠ "" →
      lookupTotal (pieFold now rs re entries).projectMap k
        = (entries.map fun e =>
            if inReportRange now rs re e && (e.type = EntryType.work : Bool)
                && (e.projectId = some k : Bool)
            then clipSeconds now rs re e else 0).sum)
  ∧ pieData 50000000 0 86399999 [pw1, pw2, pw3, npSmall] [projP]
      = [⟨"Proj", 7 / 2, "#f00"⟩]
  ∧ pieData 50000000 0 86399999 [pw1, pw2, pw3, npBig] [projP]
      = [⟨"Proj", 7 / 2, "#f00"⟩, ⟨"No Project", 1 / 50, "#ccc"⟩] := by
  refine ⟨?_,
    by norm_num +decide [pieData, pieFold, pieStep, upsert, findProject, orDefault,
      round2, round_eq, inReportRange, isWithinInterval, effEnd, truthyTime,
      clipSeconds, min_def, max_def, List.find?, projP, pw1, pw2, pw3, npSmall],
    by norm_num +decide [pieData, pieFold, pieStep, upsert, findProject, orDefault,
      round2, round_eq, inReportRange, isWithinInterval, effEnd, truthyTime,
      clipSeconds, min_def, max_def, List.find?, projP, pw1, pw2, pw3, npBig]⟩
  intro now rs re entries k hk
  unfold pieFold
  rw [lookupTotal_pieStep_fold now rs re k hk]
  have h0 : lookupTotal (⟨[], 0⟩ : PieAcc).projectMap k = 0 := rfl
  rw [h0, zero_add]
  exact sum_map_filter2_if _ _ _ _ entries

/-- C5 witness at a concrete input. -/
theorem pieData_project_totals_witness :
    lookupTotal (pieFold 50000000 0 86399999 [pw1]).projectMap "P"
      = ([pw1].map fun e =>
          if inReportRange 50000000 0 86399999 e
              && (e.type = EntryType.work : Bool)
              && (e.projectId = some "P" : Bool)
          then clipSeconds 50000000 0 86399999 e else 0).sum :=
  pieData_project_totals.1 50000000 0 86399999 [pw1] "P" (by decide)

/-- C9: deleteProject leaves every entry in place (dangling projectId kept),
the deleted id no longer resolves in the project list, and any project-map
bucket keyed by the deleted id is reported under the Unknown label; the report
query is a total function of the store, so it cannot fail. -/
theorem deleteProject_report_unknown (st : TimeStore) (pid : String)
    (now rs re : Int) :
    (deleteProject st pid).entries = st.entries
  ∧ findProject (deleteProject st pid).projects pid = none
  ∧ ∀ kv ∈ (pieFold now rs re st.entries).projectMap, kv.1 = pid →
      (⟨"Unknown", round2 (kv.2 / 3600), "#999"⟩ : PieSlice)
        ∈ pieData now rs re st.entries (deleteProject st pid).projects := by
  refine ⟨rfl, findProject_delete_none st pid, ?_⟩
  intro kv hkv hk
  have hf : findProject (deleteProject st pid).projects kv.1 = none := by
    rw [hk]
    exact findProject_delete_none st pid
  simp only [pieData]
  have hmem : (⟨"Unknown", round2 (kv.2 / 3600), "#999"⟩ : PieSlice)
      ∈ (pieFold now rs re st.entries).projectMap.map fun kv' =>
          ({ name := orDefault ((findProject (deleteProject st pid).projects
                kv'.1).map Project.name) "Unknown"
             value := round2 (kv'.2 / 3600)
             color := orDefault ((findProject (deleteProject st pid).projects
                kv'.1).map Project.color) "#999" } : PieSlice) := by
    refine List.mem_map.mpr ⟨kv, hkv, ?_⟩
    simp [hf, orDefault]
  by_cases hc : (pieFold now rs re st.entries).noProjectSeconds > 60
  · rw [if_pos hc]
    exact List.mem_append_left _ hmem
  · rw [if_neg hc]
    exact hmem

/-- C9 witness at a concrete input: deleting project P and querying the report
over an entry still referencing P. -/
theorem deleteProject_report_unknown_witness :
    (⟨"Unknown", round2 ((3600 : ℚ) / 3600), "#999"⟩ : PieSlice)
      ∈ pieData 50000000 0 86399999 [pw1]
          (deleteProject ⟨[pw1], [projP], []⟩ "P").projects
  ∧ (deleteProject ⟨[pw1], [projP], []⟩ "P").entries = [pw1] :=
  ⟨(deleteProject_report_unknown ⟨[pw1], [projP], []⟩ "P" 50000000 0 86399999).2.2
      ("P", 3600)
      (by norm_num +decide [pieFold, pieStep, upsert, inReportRange, isWithinInterval,
        effEnd, truthyTime, clipSeconds, min_def, max_def, pw1])
      rfl,
   (deleteProject_report_unknown ⟨[pw1], [projP], []⟩ "P" 50000000 0 86399999).1⟩

end TOIL
